/-
  Verification of the consolidation pipeline in `crcClean.py`.

  The pipeline's pure core is shallowly embedded here:

  * `normalize_tcga_id`, `extract_sample_id` model the sample-ID extraction
    (the regexes of the source are implemented directly as character-list
    scanners with Python `re.search` leftmost-match semantics;
    `stemOf`/`suffixOf` model `pathlib`'s `stem`/`suffix`).
  * DataFrame contents are modelled after the `pandas.read_csv` result: a
    `RawFile` carries the file name, the header, and the rows, each cell
    being a string or a rational number (`Val`).  Numeric cells use `Rat`
    in place of floating point; files considered by the theorems are
    well-typed, and the coercions `Val.toKey`/`Val.toRat` are exercised
    only on cells of the corresponding kind.
  * `parse_mirna_quant`, `parse_rppa`, `parse_seg` model the three parsers;
    a missing-column `KeyError` is an `Except.error`.
  * `collect_data` models the directory scan (glob matching abstracted as a
    Boolean predicate on file names, the directory as an optional file
    list), the per-file try/except containment loop, the per-type
    concat/dedup merge (`concat0`, `dedupIndex`) and the cross-type
    outer join with zero fill (`concat1`, `fillna0`), including pandas'
    refusal to align frames that carry duplicate column labels.
-/
import Mathlib

namespace CrcClean

/-! ### Character classes of the source's regular expressions -/

/-- The class `[A-Z0-9]` used by the barcode regexes. -/
def isBC (c : Char) : Bool := c.isUpper || c.isDigit

/-- The class `[A-Z0-9-]` used by the search regex `TCGA-[A-Z0-9-]+`. -/
def isBCd (c : Char) : Bool := isBC c || c = '-'

/-- The class `[0-9a-f]` used by the UUID regex. -/
def isHexLower (c : Char) : Bool := c.isDigit || ('a' ≤ c && c ≤ 'f')

/-! ### Leftmost-match scanners for the three regexes -/

/-- Attempt of `TCGA-[A-Z0-9-]+` anchored at the head of the character
list: the literal `TCGA-` followed by a maximal nonempty run of the
class, as the greedy `+` takes. -/
def tcgaMatchAt : List Char → Option (List Char)
  | 'T' :: 'C' :: 'G' :: 'A' :: '-' :: rest =>
    if (rest.takeWhile isBCd).isEmpty then none
    else some ('T' :: 'C' :: 'G' :: 'A' :: '-' :: rest.takeWhile isBCd)
  | _ => none

/-- `re.search(r"(TCGA-[A-Z0-9-]+)", _)`: leftmost match, scanning
positions left to right. -/
def searchTCGAaux : List Char → Option (List Char)
  | [] => none
  | c :: rest =>
    match tcgaMatchAt (c :: rest) with
    | some m => some m
    | none => searchTCGAaux rest

def searchTCGA (s : String) : Option String :=
  (searchTCGAaux s.data).map fun l => String.mk l

/-- Shape test for one UUID window: 36 characters, dashes at offsets
8, 13, 18, 23, lowercase hex everywhere else. -/
def isUuidChunk (cs : List Char) : Bool :=
  cs.length = 36 &&
    (List.range 36).all fun i =>
      let c := cs.getD i ' '
      if i = 8 || i = 13 || i = 18 || i = 23 then c = '-' else isHexLower c

/-- `re.search` of the 8-4-4-4-12 lowercase-hex UUID pattern: leftmost
36-character window of the right shape. -/
def searchUUIDaux : List Char → Option (List Char)
  | [] => none
  | c :: rest =>
    if isUuidChunk ((c :: rest).take 36) then some ((c :: rest).take 36)
    else searchUUIDaux rest

def searchUUID (s : String) : Option String :=
  (searchUUIDaux s.data).map fun l => String.mk l

/-! ### `pathlib` stem and suffix -/

/-- Index of the last `'.'` in the character list, if any. -/
def rfindDot (cs : List Char) : Option Nat :=
  match cs.reverse.findIdx? (fun c => c = '.') with
  | some j => some (cs.length - 1 - j)
  | none => none

/-- `pathlib.PurePath.stem`: the name with its suffix removed; the suffix
exists only when the last dot sits strictly inside the name and not at
position 0 (so dotfiles such as `.txt` and trailing dots keep the whole
name). -/
def stemOf (name : String) : String :=
  match rfindDot name.data with
  | some i =>
    if 0 < i ∧ i < name.data.length - 1 then String.mk (name.data.take i) else name
  | none => name

/-- `pathlib.PurePath.suffix`, under the same rule as `stemOf`. -/
def suffixOf (name : String) : String :=
  match rfindDot name.data with
  | some i =>
    if 0 < i ∧ i < name.data.length - 1 then String.mk (name.data.drop i) else ""
  | none => ""

/-! ### Sample-ID extraction -/

/-- Python `s.split("-")`: split at every dash, keeping empty pieces. -/
def splitOnDash : List Char → List (List Char)
  | [] => [[]]
  | c :: rest =>
    match splitOnDash rest with
    | [] => [[]]
    | g :: gs => if c = '-' then [] :: g :: gs else (c :: g) :: gs

/-- Python `s.startswith(pre)`. -/
def startsWith (pre : List Char) (cs : List Char) : Bool :=
  match pre, cs with
  | [], _ => true
  | _ :: _, [] => false
  | p :: ps, c :: rest => c == p && startsWith ps rest

/-- `re.match(r"TCGA-[A-Z0-9]{2}-[A-Z0-9]{4}", _)` at the start of the
string (further characters may follow the matched 12-character span). -/
def matchCanon : List Char → Bool
  | 'T' :: 'C' :: 'G' :: 'A' :: '-' :: a :: b :: '-' :: c :: d :: e :: f :: _ =>
    isBC a && isBC b && isBC c && isBC d && isBC e && isBC f
  | _ => false

/-- `normalize_tcga_id`: truncate a barcode match to `TCGA-XX-YYYY`; else,
for a string starting `TCGA-`, rebuild from the first two dash groups;
else return the input unchanged. -/
def normalize_tcga_id (identifier : String) : String :=
  if matchCanon identifier.data then String.mk (identifier.data.take 12)
  else if startsWith "TCGA-".data identifier.data then
    let parts := (splitOnDash identifier.data).map fun l => String.mk l
    if 3 ≤ parts.length then
      "TCGA-" ++ parts.getD 1 "" ++ "-" ++ parts.getD 2 ""
    else identifier
  else identifier

/-- `extract_sample_id`, over the file's name: barcode search first
(normalized), then UUID search (verbatim), then the normalized stem. -/
def extract_sample_id (name : String) : String :=
  match searchTCGA name with
  | some m => normalize_tcga_id m
  | none =>
    match searchUUID name with
    | some u => u
    | none => normalize_tcga_id (stemOf name)

/-! ### Data model: raw files and wide single-row frames -/

/-- One cell of a delimited file, as `pandas.read_csv` would deliver it:
either a string or a number (rationals stand in for floats). -/
inductive Val where
  | str : String → Val
  | num : Rat → Val
deriving DecidableEq, Repr

/-- The string content of a key cell. -/
def Val.toKey : Val → String
  | .str s => s
  | .num q => toString q

/-- The numeric content of a value cell. -/
def Val.toRat : Val → Rat
  | .str _ => 0
  | .num q => q

/-- A raw delimited file after reading: file name, header, rows. -/
structure RawFile where
  name : String
  columns : List String
  rows : List (List Val)
deriving DecidableEq, Repr

deriving instance DecidableEq for Except

/-- A parser's wide output: one row, indexed by the extracted sample ID,
with an ordered column list that may carry duplicate names. -/
structure Frame where
  idx : String
  cols : List (String × Rat)
deriving DecidableEq, Repr

def colNames (fr : Frame) : List String := fr.cols.map Prod.fst

/-- Position of a column name in the header, `df.columns.get_loc` style. -/
def findCol : List String → String → Option Nat
  | [], _ => none
  | x :: xs, c => if x == c then some 0 else (findCol xs c).map (· + 1)

/-- Cell of a row at a column position. -/
def cellAt (row : List Val) (i : Nat) : Val := row.getD i (.str "")

/-! ### The three assay parsers -/

/-- `parse_mirna_quant`: select `miRNA_ID` and
`reads_per_million_miRNA_mapped` (a `KeyError` if either is absent),
set the index to `miRNA_ID` and transpose.  The output columns are the
`miRNA_ID` cells row by row — duplicates are preserved, nothing is
aggregated. -/
def parse_mirna_quant (f : RawFile) : Except String Frame :=
  match findCol f.columns "miRNA_ID", findCol f.columns "reads_per_million_miRNA_mapped" with
  | some i, some j =>
    .ok { idx := extract_sample_id f.name,
          cols := f.rows.map fun r => ((cellAt r i).toKey, (cellAt r j).toRat) }
  | _, _ => .error "KeyError: columns not in index"

/-- `parse_rppa`: the same wide reshaping on `peptide_target` and
`protein_expression`. -/
def parse_rppa (f : RawFile) : Except String Frame :=
  match findCol f.columns "peptide_target", findCol f.columns "protein_expression" with
  | some i, some j =>
    .ok { idx := extract_sample_id f.name,
          cols := f.rows.map fun r => ((cellAt r i).toKey, (cellAt r j).toRat) }
  | _, _ => .error "KeyError: columns not in index"

/-- Arithmetic mean of a list of rationals, `Series.mean` on a group. -/
def listMean (l : List Rat) : Rat := l.sum / (l.length : Rat)

/-- Lexicographic code-point comparison on strings, as pandas sorts group
keys. -/
def strLeb : List Char → List Char → Bool
  | [], _ => true
  | _ :: _, [] => false
  | a :: as, b :: bs =>
    if a.val < b.val then true
    else if b.val < a.val then false
    else strLeb as bs

/-- First-occurrence deduplication of a string list. -/
def dedupAux (seen : List String) : List String → List String
  | [] => []
  | x :: xs => if x ∈ seen then dedupAux seen xs else x :: dedupAux (x :: seen) xs

def dedupKeepFirst (l : List String) : List String := dedupAux [] l

/-- Stable insertion of a string into a list ordered by `strLeb`. -/
def insSorted (x : String) : List String → List String
  | [] => [x]
  | y :: ys => if strLeb x.data y.data then x :: y :: ys else y :: insSorted x ys

/-- Insertion sort under `strLeb`; on the duplicate-free key lists it is
applied to it produces the same ordering pandas' group-key sort does. -/
def sortStrings : List String → List String
  | [] => []
  | x :: xs => insSorted x (sortStrings xs)

/-- `df.groupby(keyCol)[valCol].mean()`: group keys sorted, one mean per
distinct raw key. -/
def groupbyMean (f : RawFile) (ki vi : Nat) : List (String × Rat) :=
  let labels := f.rows.map fun r => (cellAt r ki).toKey
  let keys := sortStrings (dedupKeepFirst labels)
  keys.map fun k =>
    (k, listMean (((f.rows.filter fun r => (cellAt r ki).toKey == k).map
        fun r => (cellAt r vi).toRat)))

/-- `parse_seg`: group by the raw `Chromosome` label (no `chr` stripping)
and take the mean of `Segment_Mean`, falling back to `Copy_Number`;
`none` when neither metric column exists, a `KeyError` when the chosen
metric is present but `Chromosome` is not. -/
def parse_seg (f : RawFile) : Except String (Option Frame) :=
  if "Segment_Mean" ∈ f.columns then
    match findCol f.columns "Chromosome", findCol f.columns "Segment_Mean" with
    | some ki, some vi =>
      .ok (some { idx := extract_sample_id f.name, cols := groupbyMean f ki vi })
    | _, _ => .error "KeyError: Chromosome"
  else if "Copy_Number" ∈ f.columns then
    match findCol f.columns "Chromosome", findCol f.columns "Copy_Number" with
    | some ki, some vi =>
      .ok (some { idx := extract_sample_id f.name, cols := groupbyMean f ki vi })
    | _, _ => .error "KeyError: Chromosome"
  else .ok none

/-! ### Directory scan and per-file containment loop -/

/-- ASCII lower-casing of a file name, `str.lower()`. -/
def lowerStr (s : String) : String := String.mk (s.data.map Char.toLower)

/-- Does `needle` occur contiguously in `hay`?  Python `needle in hay`. -/
def containsChars (hay needle : List Char) : Bool :=
  match hay with
  | [] => needle.isEmpty
  | h :: hs => startsWith needle (h :: hs) || containsChars hs needle

/-- Case-insensitive substring test, `needle in name.lower()`. -/
def substrIn (needle hay : String) : Bool := containsChars (lowerStr hay).data needle.data

def isMirnaName (name : String) : Bool :=
  substrIn "quantification" name && substrIn "mirbase21" name

def isRppaName (name : String) : Bool := substrIn "rppa" name

def isSegName (name : String) : Bool := substrIn "seg" name

/-- Accumulator of the scan loop: the three per-type frame lists and the
log of `Failed to parse ...` messages. -/
structure Parsed where
  mirna : List Frame
  rppa : List Frame
  seg : List Frame
  log : List String
deriving DecidableEq, Repr

def emptyParsed : Parsed := ⟨[], [], [], []⟩

def failMsg (name e : String) : String := "Failed to parse " ++ name ++ ": " ++ e

/-- One iteration of the scan loop: classify by name substrings in the
source's order, run the parser, and on any parse error log and move on
(the `try/except` containment). -/
def processFile (acc : Parsed) (f : RawFile) : Parsed :=
  if isMirnaName f.name then
    match parse_mirna_quant f with
    | .ok w => { acc with mirna := acc.mirna ++ [w] }
    | .error e => { acc with log := acc.log ++ [failMsg f.name e] }
  else if isRppaName f.name then
    match parse_rppa f with
    | .ok w => { acc with rppa := acc.rppa ++ [w] }
    | .error e => { acc with log := acc.log ++ [failMsg f.name e] }
  else if isSegName f.name then
    match parse_seg f with
    | .ok (some w) => { acc with seg := acc.seg ++ [w] }
    | .ok none => acc
    | .error e => { acc with log := acc.log ++ [failMsg f.name e] }
  else acc

def collectLoop (files : List RawFile) : Parsed := files.foldl processFile emptyParsed

/-! ### Per-type merge: `pd.concat(axis=0)` plus keep-first dedup -/

/-- A stacked table: a shared column list and rows of index label plus
positionally aligned cells, `none` being `NaN`. -/
structure Table where
  cols : List String
  rows : List (String × List (Option Rat))
deriving DecidableEq, Repr

def rowIds (t : Table) : List String := t.rows.map Prod.fst

def hasDup : List String → Bool
  | [] => false
  | x :: xs => x ∈ xs || hasDup xs

def unionInOrder (ls : List (List String)) : List String :=
  dedupKeepFirst (ls.flatMap id)

/-- Reindex one frame's row onto the union column list. -/
def reindexFrame (u : List String) (fr : Frame) : String × List (Option Rat) :=
  (fr.idx, u.map fun c => (fr.cols.find? fun p => p.1 == c).map Prod.snd)

/-- `pd.concat(frames, axis=0, sort=False)`: when every frame carries the
same column list it is stacked as is (duplicate column labels survive);
otherwise each frame is reindexed onto the in-order union of the
columns, which pandas refuses (`InvalidIndexError`) as soon as one
frame's columns are not uniquely labelled. -/
def concat0 (fs : List Frame) : Except String Table :=
  match fs with
  | [] => .ok ⟨[], []⟩
  | f0 :: _ =>
    if fs.all fun f => colNames f == colNames f0 then
      .ok ⟨colNames f0, fs.map fun f => (f.idx, f.cols.map fun p => some p.2)⟩
    else if fs.any fun f => hasDup (colNames f) then
      .error "InvalidIndexError: Reindexing only valid with uniquely valued Index objects"
    else
      .ok ⟨unionInOrder (fs.map colNames), fs.map (reindexFrame (unionInOrder (fs.map colNames)))⟩

/-- First-occurrence deduplication of rows by index label. -/
def dedupRowsAux {α : Type} (seen : List String) : List (String × α) → List (String × α)
  | [] => []
  | r :: rs => if r.1 ∈ seen then dedupRowsAux seen rs else r :: dedupRowsAux (r.1 :: seen) rs

/-- `t[~t.index.duplicated(keep="first")]`. -/
def dedupIndex (t : Table) : Table := ⟨t.cols, dedupRowsAux [] t.rows⟩

/-- The per-type merge block: nothing for an empty frame list, else
concatenate, dedup the index, and fail if no row remains. -/
def mergeType (fs : List Frame) (label : String) : Except String (Option Table) :=
  if fs.isEmpty then .ok none
  else do
    let t ← concat0 fs
    let t := dedupIndex t
    if t.rows.isEmpty then .error (label ++ " merge produced 0 rows") else .ok (some t)

/-! ### Cross-type merge: `pd.concat(axis=1)`, zero fill, relabel -/

/-- The row segment a table contributes for sample `s`: its own row when
present, else a row of `NaN`s under its columns. -/
def segmentFor (t : Table) (s : String) : List (Option Rat) :=
  match t.rows.find? fun r => r.1 == s with
  | some r => r.2
  | none => t.cols.map fun _ => none

/-- `pd.concat(tables, axis=1, sort=False)`: outer union of the (unique)
row labels in order of first appearance, columns concatenated per
table. -/
def concat1 (ts : List Table) : Table :=
  ⟨ts.flatMap Table.cols,
   (dedupKeepFirst (ts.flatMap rowIds)).map fun s => (s, ts.flatMap fun t => segmentFor t s)⟩

/-- The final zero-filled matrix. -/
structure FinalTable where
  cols : List String
  rows : List (String × List Rat)
deriving DecidableEq, Repr

/-- `.fillna(0)`. -/
def fillna0 (t : Table) : FinalTable :=
  ⟨t.cols, t.rows.map fun r => (r.1, r.2.map fun v => v.getD 0)⟩

/-- `final.index = [normalize_tcga_id(idx) for idx in final.index]`. -/
def relabelTable (t : FinalTable) : FinalTable :=
  ⟨t.cols, t.rows.map fun r => (normalize_tcga_id r.1, r.2)⟩

/-- `collect_data`: a missing directory and an empty candidate list are
fatal; the glob filter is abstracted as a predicate on file names; the
extension allow-list, the containment loop, the three per-type merges
and the cross-type zero-filled join follow the source. -/
def collect_data (dataDir : Option (List RawFile)) (pat : String → Bool) :
    Except String FinalTable :=
  match dataDir with
  | none => .error "Data directory not found"
  | some allFiles =>
    let files := allFiles.filter fun f =>
      pat f.name && (suffixOf f.name ∈ [".txt", ".tsv", ".csv"])
    if files.isEmpty then .error "No files matched" else do
      let p := collectLoop files
      let m ← mergeType p.mirna "miRNA"
      let r ← mergeType p.rppa "RPPA"
      let g ← mergeType p.seg "Segmentation"
      let combined := [m, r, g].filterMap id
      if combined.isEmpty then .error "No data parsed from matched files"
      else .ok (relabelTable (fillna0 (concat1 combined)))

/-! ### Observables used by the claims -/

/-- A final table read as the list of (sample, feature, value) triples. -/
def triples (t : FinalTable) : List (String × String × Rat) :=
  t.rows.flatMap fun row => (t.cols.zip row.2).map fun cv => (row.1, cv.1, cv.2)

/-- Row cells are positionally aligned with the column list. -/
def WFTable (t : Table) : Prop := ∀ r ∈ t.rows, r.2.length = t.cols.length

/-- The miRNA identifier a raw row carries (its cell under `miRNA_ID`). -/
def mirnaKey (f : RawFile) (r : List Val) : String :=
  (cellAt r ((findCol f.columns "miRNA_ID").getD 0)).toKey

/-- The reads-per-million value a raw row carries. -/
def mirnaVal (f : RawFile) (r : List Val) : Rat :=
  (cellAt r ((findCol f.columns "reads_per_million_miRNA_mapped").getD 0)).toRat

/-- The raw chromosome label a segmentation row carries. -/
def segKey (f : RawFile) (r : List Val) : String :=
  (cellAt r ((findCol f.columns "Chromosome").getD 0)).toKey

/-- Mean of the metric at column position `vi` over the rows labelled
exactly `k`. -/
def segMeanAt (f : RawFile) (vi : Nat) (k : String) : Rat :=
  listMean ((f.rows.filter fun r => segKey f r == k).map fun r => (cellAt r vi).toRat)

/-- The metric column the segmentation parser selects: `Segment_Mean`
preferred, `Copy_Number` as fallback. -/
def selMetric (f : RawFile) : Option String :=
  if "Segment_Mean" ∈ f.columns then some "Segment_Mean"
  else if "Copy_Number" ∈ f.columns then some "Copy_Number"
  else none

/-- An already-canonical barcode: exactly `TCGA-` plus a two-character
and a four-character group over `[A-Z0-9]`. -/
def isCanonicalBarcode (s : String) : Bool :=
  s.data.length == 12 && matchCanon s.data

/-! ### Concrete input files used by counterexamples and witnesses -/

/-- The spec's end-to-end miRNA file: two isoform rows for `hsa-mir-21`
with RPM 10 and 5. -/
def mirnaFileAB : RawFile :=
  ⟨"TCGA-AB-1234.quantification.mirbase21.txt",
   ["miRNA_ID", "reads_per_million_miRNA_mapped"],
   [[.str "hsa-mir-21", .num 10], [.str "hsa-mir-21", .num 5]]⟩

/-- The spec's end-to-end RPPA file: one row `AKT` / 2.5. -/
def rppaFileAB : RawFile :=
  ⟨"TCGA-AB-1234.rppa.txt",
   ["peptide_target", "protein_expression"],
   [[.str "AKT", .num (5 / 2)]]⟩

/-- A segmentation file carrying both a `chr`-prefixed and a bare label
for chromosome 7. -/
def segFileCD : RawFile :=
  ⟨"TCGA-CD-5678.seg.txt",
   ["Chromosome", "Segment_Mean"],
   [[.str "chr7", .num 1], [.str "7", .num 3]]⟩

/-- A miRNA file whose reads-per-million column uses a historical
spelling other than `reads_per_million_miRNA_mapped`. -/
def mirnaFileAltSpelling : RawFile :=
  ⟨"x.quantification.mirbase21.txt",
   ["miRNA_ID", "reads_per_million"],
   [[.str "hsa-mir-21", .num 10]]⟩

/-- A miRNA file with duplicate feature rows (duplicate wide columns). -/
def mirnaFileDupCols : RawFile :=
  ⟨"TCGA-AA-0001.quantification.mirbase21.txt",
   ["miRNA_ID", "reads_per_million_miRNA_mapped"],
   [[.str "x", .num 1], [.str "x", .num 2]]⟩

/-- A second miRNA file with a different column set. -/
def mirnaFileOther : RawFile :=
  ⟨"TCGA-BB-0002.quantification.mirbase21.txt",
   ["miRNA_ID", "reads_per_million_miRNA_mapped"],
   [[.str "y", .num 3]]⟩

/-- The glob pattern `*`. -/
def patAll : String → Bool := fun _ => true

/-! ### Supporting lemmas -/

lemma findCol_mem {cols : List String} {c : String} {i : Nat} (h : findCol cols c = some i) :
    c ∈ cols := by
  induction cols generalizing i with
  | nil => simp [findCol] at h
  | cons x xs ih =>
    by_cases hx : x == c
    · simp [beq_iff_eq] at hx; simp [hx]
    · simp only [findCol, hx, if_false] at h
      rcases Option.map_eq_some'.mp h with ⟨j, hj, _⟩
      exact List.mem_cons_of_mem _ (ih hj)

lemma exists_findCol {cols : List String} {c : String} (h : c ∈ cols) :
    ∃ i, findCol cols c = some i := by
  induction cols with
  | nil => simp at h
  | cons x xs ih =>
    by_cases hx : x == c
    · exact ⟨0, by simp [findCol, hx]⟩
    · have hc : c ∈ xs := by
        rcases List.mem_cons.mp h with h1 | h1
        · exact absurd (beq_iff_eq.mpr h1.symm) hx
        · exact h1
      rcases ih hc with ⟨j, hj⟩
      exact ⟨j + 1, by simp [findCol, hx, hj]⟩

lemma filter_map_pair {α : Type} (l : List α) (g : α → String) (h : α → Rat) (k : String) :
    (((l.map fun r => (g r, h r)).filter fun p => p.1 == k).map Prod.snd)
      = ((l.filter fun r => g r == k).map h) := by
  induction l with
  | nil => rfl
  | cons a t ih =>
    by_cases hga : g a == k
    · simp [List.filter_cons, hga, ih]
    · simp only [List.map_cons, List.filter_cons, hga]
      simpa using ih

lemma mem_dedupAux {l : List String} {seen : List String} {a : String} :
    a ∈ dedupAux seen l ↔ a ∈ l ∧ a ∉ seen := by
  induction l generalizing seen with
  | nil => simp [dedupAux]
  | cons x xs ih =>
    by_cases hx : x ∈ seen
    · rw [dedupAux, if_pos hx, ih]
      constructor
      · rintro ⟨h1, h2⟩; exact ⟨List.mem_cons_of_mem _ h1, h2⟩
      · rintro ⟨h1, h2⟩
        rcases List.mem_cons.mp h1 with rfl | h1
        · exact absurd hx h2
        · exact ⟨h1, h2⟩
    · rw [dedupAux, if_neg hx]
      constructor
      · intro h
        rcases List.mem_cons.mp h with rfl | h1
        · exact ⟨List.mem_cons_self _ _, hx⟩
        · rcases ih.mp h1 with ⟨h2, h3⟩
          exact ⟨List.mem_cons_of_mem _ h2, fun hs => h3 (List.mem_cons_of_mem _ hs)⟩
      · rintro ⟨h1, h2⟩
        rcases List.mem_cons.mp h1 with rfl | h1
        · exact List.mem_cons_self _ _
        · by_cases hax : a = x
          · subst hax; exact List.mem_cons_self _ _
          · exact List.mem_cons_of_mem _
              (ih.mpr ⟨h1, fun hs => by
                rcases List.mem_cons.mp hs with h | h
                · exact hax h
                · exact h2 h⟩)

lemma mem_dedupKeepFirst {l : List String} {a : String} :
    a ∈ dedupKeepFirst l ↔ a ∈ l := by
  rw [dedupKeepFirst, mem_dedupAux]; simp

lemma nodup_dedupAux (l : List String) (seen : List String) :
    (dedupAux seen l).Nodup := by
  induction l generalizing seen with
  | nil => simp [dedupAux]
  | cons x xs ih =>
    by_cases hx : x ∈ seen
    · rw [dedupAux, if_pos hx]; exact ih seen
    · rw [dedupAux, if_neg hx]
      refine List.nodup_cons.mpr ⟨fun hmem => ?_, ih (x :: seen)⟩
      exact (mem_dedupAux.mp hmem).2 (List.mem_cons_self _ _)

lemma nodup_dedupKeepFirst (l : List String) : (dedupKeepFirst l).Nodup :=
  nodup_dedupAux l []

lemma mem_insSorted {x a : String} {l : List String} :
    a ∈ insSorted x l ↔ a = x ∨ a ∈ l := by
  induction l with
  | nil => simp [insSorted]
  | cons y ys ih =>
    rw [insSorted]
    by_cases hle : strLeb x.data y.data
    · simp [hle]
    · rw [if_neg hle]
      simp only [List.mem_cons, ih]
      tauto

lemma mem_sortStrings {a : String} {l : List String} :
    a ∈ sortStrings l ↔ a ∈ l := by
  induction l with
  | nil => simp [sortStrings]
  | cons x xs ih => rw [sortStrings, mem_insSorted, ih]; simp

lemma nodup_insSorted {x : String} {l : List String} (hx : x ∉ l) (hl : l.Nodup) :
    (insSorted x l).Nodup := by
  induction l with
  | nil => simp [insSorted]
  | cons y ys ih =>
    rw [insSorted]
    by_cases hle : strLeb x.data y.data
    · rw [if_pos hle]
      exact List.nodup_cons.mpr ⟨hx, hl⟩
    · rw [if_neg hle]
      rcases List.nodup_cons.mp hl with ⟨hy, hys⟩
      refine List.nodup_cons.mpr ⟨fun hmem => ?_, ih (fun h => hx (List.mem_cons_of_mem _ h)) hys⟩
      rcases mem_insSorted.mp hmem with rfl | h
      · exact hx (List.mem_cons_self _ _)
      · exact hy h

lemma nodup_sortStrings {l : List String} (h : l.Nodup) : (sortStrings l).Nodup := by
  induction l with
  | nil => simp [sortStrings]
  | cons x xs ih =>
    rcases List.nodup_cons.mp h with ⟨hx, hxs⟩
    exact nodup_insSorted (fun hm => hx (mem_sortStrings.mp hm)) (ih hxs)

/-! ### C1: the miRNA parser performs no aggregation -/

/-- Claim C1, amended: the miRNA parser performs no sum aggregation.  For
every file carrying the two required columns, the single-row output has
one column per source row, in order, and for each miRNA identifier the
output carries the list of all its reads-per-million values as repeated
columns, not their sum. -/
theorem C1_mirna_no_aggregation (f : RawFile)
    (h1 : "miRNA_ID" ∈ f.columns)
    (h2 : "reads_per_million_miRNA_mapped" ∈ f.columns) :
    ∃ fr, parse_mirna_quant f = .ok fr ∧
      fr.idx = extract_sample_id f.name ∧
      fr.cols = f.rows.map (fun r => (mirnaKey f r, mirnaVal f r)) ∧
      ∀ k, ((fr.cols.filter fun p => p.1 == k).map Prod.snd)
        = ((f.rows.filter fun r => mirnaKey f r == k).map (mirnaVal f)) := by
  obtain ⟨i, hi⟩ := exists_findCol h1
  obtain ⟨j, hj⟩ := exists_findCol h2
  refine ⟨⟨extract_sample_id f.name, f.rows.map fun r => (mirnaKey f r, mirnaVal f r)⟩,
    ?_, rfl, rfl, ?_⟩
  · unfold parse_mirna_quant
    rw [hi, hj]
    simp [mirnaKey, mirnaVal, hi, hj]
  · intro k
    exact filter_map_pair f.rows (mirnaKey f) (mirnaVal f) k

/-- Claim C1, counterexample to the claim as stated: on a valid file with
two isoform rows for `hsa-mir-21` (RPM 10 and 5) the parser's output
carries the two values as separate duplicate columns, not the single
summed column 15. -/
theorem C1_counterexample :
    parse_mirna_quant mirnaFileAB =
      .ok ⟨"TCGA-AB-1234", [("hsa-mir-21", 10), ("hsa-mir-21", 5)]⟩ ∧
    (([("hsa-mir-21", (10 : Rat)), ("hsa-mir-21", 5)].filter
        fun p => p.1 == "hsa-mir-21").map Prod.snd) ≠ [15] :=
  ⟨by decide, by decide⟩

/-- Claim C1, witness: the amended theorem instantiated at the concrete
two-isoform file. -/
theorem C1_witness :
    ∃ fr, parse_mirna_quant mirnaFileAB = .ok fr ∧
      fr.idx = extract_sample_id mirnaFileAB.name ∧
      fr.cols = mirnaFileAB.rows.map
        (fun r => (mirnaKey mirnaFileAB r, mirnaVal mirnaFileAB r)) ∧
      ∀ k, ((fr.cols.filter fun p => p.1 == k).map Prod.snd)
        = ((mirnaFileAB.rows.filter fun r => mirnaKey mirnaFileAB r == k).map
            (mirnaVal mirnaFileAB)) :=
  C1_mirna_no_aggregation mirnaFileAB (by decide) (by decide)

/-! ### C2: the end-to-end two-file scenario -/

/-- Claim C2, amended: on the directory holding the two-isoform miRNA file
and the one-row RPPA file for sample `TCGA-AB-1234`, the pipeline
produces exactly one row, keyed `TCGA-AB-1234`, with two duplicate
columns named `hsa-mir-21` carrying 10 and 5 (no summing) and one
column `AKT` carrying 2.5; feature columns carry their raw names, with
no assay-type namespacing. -/
theorem C2_end_to_end :
    collect_data (some [mirnaFileAB, rppaFileAB]) patAll =
      .ok ⟨["hsa-mir-21", "hsa-mir-21", "AKT"],
           [("TCGA-AB-1234", [10, 5, 5 / 2])]⟩ :=
  rfl

/-- Claim C2, counterexample to the claim as stated: the consolidated
output of the scenario has no namespaced column `mirna__hsa-mir-21`
(and hence no such column equal to 15). -/
theorem C2_counterexample :
    collect_data (some [mirnaFileAB, rppaFileAB]) patAll =
      .ok ⟨["hsa-mir-21", "hsa-mir-21", "AKT"],
           [("TCGA-AB-1234", [10, 5, 5 / 2])]⟩ ∧
    "mirna__hsa-mir-21" ∉ ["hsa-mir-21", "hsa-mir-21", "AKT"] ∧
    "rppa__AKT" ∉ ["hsa-mir-21", "hsa-mir-21", "AKT"] :=
  ⟨rfl, by decide, by decide⟩

/-! ### C3: the segmentation parser groups by the raw chromosome label -/

lemma mem_groupbyMean {f : RawFile} {ki vi : Nat} {k : String} {v : Rat} :
    (k, v) ∈ groupbyMean f ki vi ↔
      (k ∈ f.rows.map (fun r => (cellAt r ki).toKey) ∧
        v = listMean (((f.rows.filter fun r => (cellAt r ki).toKey == k).map
          fun r => (cellAt r vi).toRat))) := by
  unfold groupbyMean
  constructor
  · intro h
    rcases List.mem_map.mp h with ⟨k', hk', heq⟩
    rcases Prod.mk.injEq .. ▸ heq with ⟨rfl, hv⟩
    exact ⟨mem_dedupKeepFirst.mp (mem_sortStrings.mp hk'), hv.symm⟩
  · rintro ⟨hk, rfl⟩
    exact List.mem_map.mpr ⟨k, mem_sortStrings.mpr (mem_dedupKeepFirst.mpr hk), rfl⟩

lemma map_pair_fst (l : List String) (g : String → Rat) :
    (l.map fun k => (k, g k)).map Prod.fst = l := by
  induction l with
  | nil => rfl
  | cons x xs ih => simp [ih]

lemma groupbyMean_keys (f : RawFile) (ki vi : Nat) :
    (groupbyMean f ki vi).map Prod.fst
      = sortStrings (dedupKeepFirst (f.rows.map fun r => (cellAt r ki).toKey)) := by
  unfold groupbyMean
  exact map_pair_fst _ _

/-- Claim C3, amended: for every segmentation file carrying `Chromosome`
and a metric column (`Segment_Mean` preferred over `Copy_Number`), the
output has exactly one column per distinct raw chromosome label, whose
value is the arithmetic mean of the selected metric over the rows
carrying that exact label.  Labels are not normalized: no `chr` prefix
is stripped, so `chr7` and `7` feed different columns. -/
theorem C3_seg_raw_label_mean (f : RawFile) (m : String)
    (hm : selMetric f = some m) (hc : "Chromosome" ∈ f.columns) :
    ∃ fr, parse_seg f = .ok (some fr) ∧
      fr.idx = extract_sample_id f.name ∧
      (colNames fr).Nodup ∧
      ∀ k, ((k, segMeanAt f ((findCol f.columns m).getD 0) k) ∈ fr.cols ↔
        k ∈ f.rows.map (segKey f)) := by
  obtain ⟨ki, hki⟩ := exists_findCol hc
  have hsk : segKey f = fun r => (cellAt r ki).toKey := by
    funext r
    rw [segKey, hki]
    rfl
  unfold selMetric at hm
  by_cases hsm : "Segment_Mean" ∈ f.columns
  · rw [if_pos hsm] at hm
    obtain rfl : "Segment_Mean" = m := by simpa using hm
    obtain ⟨vi, hvi⟩ := exists_findCol hsm
    refine ⟨⟨extract_sample_id f.name, groupbyMean f ki vi⟩, ?_, rfl, ?_, ?_⟩
    · unfold parse_seg
      rw [if_pos hsm, hki, hvi]
    · rw [colNames, groupbyMean_keys]
      exact nodup_sortStrings (nodup_dedupKeepFirst _)
    · intro k
      rw [mem_groupbyMean, hsk]
      constructor
      · exact fun h => h.1
      · intro h
        refine ⟨h, ?_⟩
        rw [segMeanAt, hsk, hvi]
        rfl
  · rw [if_neg hsm] at hm
    by_cases hcn : "Copy_Number" ∈ f.columns
    · rw [if_pos hcn] at hm
      obtain rfl : "Copy_Number" = m := by simpa using hm
      obtain ⟨vi, hvi⟩ := exists_findCol hcn
      refine ⟨⟨extract_sample_id f.name, groupbyMean f ki vi⟩, ?_, rfl, ?_, ?_⟩
      · unfold parse_seg
        rw [if_neg hsm, if_pos hcn, hki, hvi]
      · rw [colNames, groupbyMean_keys]
        exact nodup_sortStrings (nodup_dedupKeepFirst _)
      · intro k
        rw [mem_groupbyMean, hsk]
        constructor
        · exact fun h => h.1
        · intro h
          refine ⟨h, ?_⟩
          rw [segMeanAt, hsk, hvi]
          rfl
    · rw [if_neg hcn] at hm
      exact absurd hm (by simp)

/-- Claim C3, counterexample to the claim as stated: on a file whose rows
are labelled `chr7` (value 1) and `7` (value 3), the parser emits two
separate columns `7` and `chr7` with means 3 and 1; the labels are not
merged into the single prefix-stripped column `7` with mean 2. -/
theorem C3_counterexample :
    parse_seg segFileCD = .ok (some ⟨"TCGA-CD-5678", [("7", 3), ("chr7", 1)]⟩) ∧
    [("7", (3 : Rat)), ("chr7", 1)] ≠ [("7", 2)] := by
  constructor
  · have h : parse_seg segFileCD =
        .ok (some ⟨"TCGA-CD-5678",
          [("7", listMean [(3 : Rat)]), ("chr7", listMean [(1 : Rat)])]⟩) := rfl
    rw [h]
    norm_num [listMean]
  · decide

/-- Claim C3, witness: the amended theorem instantiated at the concrete
mixed-label segmentation file. -/
theorem C3_witness :
    ∃ fr, parse_seg segFileCD = .ok (some fr) ∧
      fr.idx = extract_sample_id segFileCD.name ∧
      (colNames fr).Nodup ∧
      ∀ k, ((k, segMeanAt segFileCD
          ((findCol segFileCD.columns "Segment_Mean").getD 0) k) ∈ fr.cols ↔
        k ∈ segFileCD.rows.map (segKey segFileCD)) :=
  C3_seg_raw_label_mean segFileCD "Segment_Mean" (by decide) (by decide)

/-! ### C4: the miRNA parser knows a single reads-per-million spelling -/

lemma parse_mirna_ok_iff (f : RawFile) :
    (∃ fr, parse_mirna_quant f = .ok fr) ↔
      ("miRNA_ID" ∈ f.columns ∧ "reads_per_million_miRNA_mapped" ∈ f.columns) := by
  constructor
  · rintro ⟨fr, hfr⟩
    unfold parse_mirna_quant at hfr
    cases h1 : findCol f.columns "miRNA_ID" with
    | none =>
      rw [h1] at hfr
      exact absurd hfr (by simp)
    | some i =>
      cases h2 : findCol f.columns "reads_per_million_miRNA_mapped" with
      | none =>
        rw [h1, h2] at hfr
        exact absurd hfr (by simp)
      | some j => exact ⟨findCol_mem h1, findCol_mem h2⟩
  · rintro ⟨h1, h2⟩
    obtain ⟨i, hi⟩ := exists_findCol h1
    obtain ⟨j, hj⟩ := exists_findCol h2
    exact ⟨_, by unfold parse_mirna_quant; rw [hi, hj]⟩

/-- Claim C4, amended: the miRNA parser accepts exactly one spelling of
the reads-per-million column, `reads_per_million_miRNA_mapped` (with
`miRNA_ID`): a parse succeeds precisely when both are present.  When
the parse fails, the batch loop catches the key-lookup error, appends a
log line naming the file and the message, and leaves every collected
frame untouched, so only that file is skipped. -/
theorem C4_single_spelling_contained (f : RawFile) :
    ((∃ fr, parse_mirna_quant f = .ok fr) ↔
      ("miRNA_ID" ∈ f.columns ∧ "reads_per_million_miRNA_mapped" ∈ f.columns)) ∧
    (∀ e acc, isMirnaName f.name = true → parse_mirna_quant f = .error e →
      processFile acc f = { acc with log := acc.log ++ [failMsg f.name e] }) := by
  refine ⟨parse_mirna_ok_iff f, ?_⟩
  intro e acc hc he
  unfold processFile
  rw [if_pos hc, he]

/-- Claim C4, counterexample to the claim as stated: a file using the
historical spelling `reads_per_million` is rejected by the parser
(only the exact spelling `reads_per_million_miRNA_mapped` is read), so
the parser does not accept three spellings. -/
theorem C4_counterexample :
    parse_mirna_quant mirnaFileAltSpelling = .error "KeyError: columns not in index" ∧
    "reads_per_million" ∈ mirnaFileAltSpelling.columns :=
  ⟨by decide, by decide⟩

/-- Claim C4, witness: the amended theorem instantiated at the
alternate-spelling file, inside an empty batch accumulator. -/
theorem C4_witness :
    ((∃ fr, parse_mirna_quant mirnaFileAltSpelling = .ok fr) ↔
      ("miRNA_ID" ∈ mirnaFileAltSpelling.columns ∧
        "reads_per_million_miRNA_mapped" ∈ mirnaFileAltSpelling.columns)) ∧
    processFile emptyParsed mirnaFileAltSpelling =
      { emptyParsed with log := emptyParsed.log ++
          [failMsg mirnaFileAltSpelling.name "KeyError: columns not in index"] } :=
  ⟨(C4_single_spelling_contained mirnaFileAltSpelling).1,
   (C4_single_spelling_contained mirnaFileAltSpelling).2 _ _ (by decide) (by decide)⟩

/-! ### C5: the three-step sample-ID extraction -/

lemma tcgaMatchAt_some {cs m : List Char} (h : tcgaMatchAt cs = some m) :
    ∃ rest, cs = 'T' :: 'C' :: 'G' :: 'A' :: '-' :: rest ∧
      m = 'T' :: 'C' :: 'G' :: 'A' :: '-' :: rest.takeWhile isBCd := by
  unfold tcgaMatchAt at h
  split at h
  next rest =>
    by_cases he : (rest.takeWhile isBCd).isEmpty
    · rw [if_pos he] at h
      exact absurd h (by simp)
    · rw [if_neg he] at h
      exact ⟨rest, rfl, (Option.some.inj h).symm⟩
  next => exact absurd h (by simp)

lemma searchTCGAaux_some {cs m : List Char} (h : searchTCGAaux cs = some m) :
    (∃ l r, cs = l ++ m ++ r) ∧ m.take 5 = "TCGA-".data := by
  induction cs with
  | nil => simp [searchTCGAaux] at h
  | cons c rest ih =>
    rw [searchTCGAaux] at h
    cases hm : tcgaMatchAt (c :: rest) with
    | some m' =>
      rw [hm] at h
      obtain rfl : m' = m := by simpa using h
      obtain ⟨r0, hcs, hmm⟩ := tcgaMatchAt_some hm
      refine ⟨⟨[], r0.dropWhile isBCd, ?_⟩, ?_⟩
      · rw [hcs, hmm]
        simp [List.takeWhile_append_dropWhile]
      · rw [hmm]
        rfl
    | none =>
      rw [hm] at h
      obtain ⟨⟨l, r, hlr⟩, ht⟩ := ih h
      exact ⟨⟨c :: l, r, by rw [hlr]; simp [List.append_assoc]⟩, ht⟩

lemma searchTCGA_some {name m : String} (h : searchTCGA name = some m) :
    (∃ l r, name.data = l ++ m.data ++ r) ∧ m.data.take 5 = "TCGA-".data := by
  unfold searchTCGA at h
  cases haux : searchTCGAaux name.data with
  | none =>
    rw [haux] at h
    exact absurd h (by simp)
  | some l =>
    rw [haux] at h
    obtain rfl : String.mk l = m := by simpa using h
    simpa using searchTCGAaux_some haux

lemma isUuidChunk_length {l : List Char} (h : isUuidChunk l = true) : l.length = 36 := by
  unfold isUuidChunk at h
  simp only [Bool.and_eq_true, decide_eq_true_eq] at h
  exact h.1

lemma searchUUIDaux_some {cs u : List Char} (h : searchUUIDaux cs = some u) :
    (∃ l r, cs = l ++ u ++ r) ∧ u.length = 36 := by
  induction cs with
  | nil => simp [searchUUIDaux] at h
  | cons c rest ih =>
    rw [searchUUIDaux] at h
    by_cases hchunk : isUuidChunk ((c :: rest).take 36)
    · rw [if_pos hchunk] at h
      obtain rfl : (c :: rest).take 36 = u := by simpa using h
      exact ⟨⟨[], (c :: rest).drop 36, by rw [List.nil_append, List.take_append_drop]⟩,
        isUuidChunk_length hchunk⟩
    · rw [if_neg hchunk] at h
      obtain ⟨⟨l, r, hlr⟩, hlen⟩ := ih h
      exact ⟨⟨c :: l, r, by rw [hlr]; simp [List.append_assoc]⟩, hlen⟩

lemma searchUUID_some {name u : String} (h : searchUUID name = some u) :
    (∃ l r, name.data = l ++ u.data ++ r) ∧ u.data.length = 36 := by
  unfold searchUUID at h
  cases haux : searchUUIDaux name.data with
  | none =>
    rw [haux] at h
    exact absurd h (by simp)
  | some l =>
    rw [haux] at h
    obtain rfl : String.mk l = u := by simpa using h
    simpa using searchUUIDaux_some haux

/-- Claim C5, amended: sample-ID extraction is total and follows the
first-match-wins three-step algorithm, except that the fallback is not
the verbatim base name: step 1 returns the canonicalization of the
leftmost barcode-shaped match (a genuine substring starting `TCGA-`),
step 2 returns a leftmost UUID-shaped substring (36 characters)
verbatim, and step 3 returns the canonicalization of the base name
without extension, which can truncate it. -/
theorem C5_three_step (name : String) :
    (∀ m, searchTCGA name = some m →
      extract_sample_id name = normalize_tcga_id m ∧
      (∃ l r, name.data = l ++ m.data ++ r) ∧ m.data.take 5 = "TCGA-".data) ∧
    (searchTCGA name = none → ∀ u, searchUUID name = some u →
      extract_sample_id name = u ∧
      (∃ l r, name.data = l ++ u.data ++ r) ∧ u.data.length = 36) ∧
    (searchTCGA name = none → searchUUID name = none →
      extract_sample_id name = normalize_tcga_id (stemOf name)) := by
  refine ⟨?_, ?_, ?_⟩
  · intro m hm
    refine ⟨?_, (searchTCGA_some hm).1, (searchTCGA_some hm).2⟩
    rw [extract_sample_id, hm]
  · intro ht u hu
    refine ⟨?_, (searchUUID_some hu).1, (searchUUID_some hu).2⟩
    rw [extract_sample_id, ht, hu]
  · intro ht hu
    rw [extract_sample_id, ht, hu]

/-- Claim C5, counterexample to the claim as stated: for the file name
`TCGA-ab-cd-ef.txt` neither a barcode-shaped nor a UUID-shaped
substring is found, yet extraction returns `TCGA-ab-cd`, not the base
name `TCGA-ab-cd-ef` — the fallback canonicalizes (and truncates) the
stem instead of returning it. -/
theorem C5_counterexample :
    extract_sample_id "TCGA-ab-cd-ef.txt" = "TCGA-ab-cd" ∧
    stemOf "TCGA-ab-cd-ef.txt" = "TCGA-ab-cd-ef" ∧
    searchTCGA "TCGA-ab-cd-ef.txt" = none ∧
    searchUUID "TCGA-ab-cd-ef.txt" = none ∧
    ("TCGA-ab-cd" : String) ≠ "TCGA-ab-cd-ef" := by
  decide

/-- Claim C5, witness: the amended fallback step instantiated at the
lower-case barcode-like file name. -/
theorem C5_witness :
    extract_sample_id "TCGA-ab-cd-ef.txt"
      = normalize_tcga_id (stemOf "TCGA-ab-cd-ef.txt") :=
  (C5_three_step "TCGA-ab-cd-ef.txt").2.2 (by decide) (by decide)

/-! ### C6: canonicalization is idempotent, extraction is non-empty -/

lemma string_mk_data (s : String) : String.mk s.data = s := rfl

lemma data_ne_nil {s : String} (h : s ≠ "") : s.data ≠ [] := by
  intro hd
  exact h (by rw [← string_mk_data s, hd])

lemma matchCanon_shape {cs : List Char} (h : matchCanon cs = true) :
    ∃ a b c d e f rest,
      cs = 'T' :: 'C' :: 'G' :: 'A' :: '-' :: a :: b :: '-' :: c :: d :: e :: f :: rest := by
  unfold matchCanon at h
  split at h
  next a b c d e f rest => exact ⟨a, b, c, d, e, f, rest, rfl⟩
  next => simp at h

lemma normalize_ne_empty {s : String} (hs : s ≠ "") : normalize_tcga_id s ≠ "" := by
  unfold normalize_tcga_id
  by_cases h1 : matchCanon s.data
  · rw [if_pos h1]
    obtain ⟨a, b, c, d, e, f, rest, hshape⟩ := matchCanon_shape h1
    rw [hshape]
    intro hcon
    have hd := congrArg String.data hcon
    simp at hd
  · rw [if_neg h1]
    by_cases h2 : startsWith "TCGA-".data s.data
    · rw [if_pos h2]
      by_cases h3 : 3 ≤ ((splitOnDash s.data).map fun l => String.mk l).length
      · rw [if_pos h3]
        intro hcon
        have hd := congrArg String.data hcon
        rw [String.data_append, String.data_append, String.data_append] at hd
        simp at hd
      · rw [if_neg h3]
        exact hs
    · rw [if_neg h2]
      exact hs

lemma stemOf_ne_empty {name : String} (h : name ≠ "") : stemOf name ≠ "" := by
  cases hf : rfindDot name.data with
  | none =>
    have hst : stemOf name = name := by
      unfold stemOf
      rw [hf]
    rw [hst]
    exact h
  | some i =>
    by_cases hcond : 0 < i ∧ i < name.data.length - 1
    · have hst : stemOf name = String.mk (name.data.take i) := by
        unfold stemOf
        rw [hf]
        exact if_pos hcond
      rw [hst]
      intro hcon
      have htake : name.data.take i = [] := by
        simpa using congrArg String.data hcon
      have hlen0 : (name.data.take i).length = 0 := by
        rw [htake]
        rfl
      rw [List.length_take] at hlen0
      rcases hcond with ⟨hc1, hc2⟩
      omega
    · have hst : stemOf name = name := by
        unfold stemOf
        rw [hf]
        exact if_neg hcond
      rw [hst]
      exact h

/-- Claim C6: applying barcode canonicalization to an already-canonical
barcode (the `TCGA-` prefix plus a two-character and a four-character
group) returns it unchanged, and extraction from any non-empty file
name yields a non-empty sample ID. -/
theorem C6_idempotent_nonempty (s name : String)
    (hs : isCanonicalBarcode s = true) (hn : name ≠ "") :
    normalize_tcga_id s = s ∧ extract_sample_id name ≠ "" := by
  constructor
  · unfold isCanonicalBarcode at hs
    simp only [Bool.and_eq_true, beq_iff_eq] at hs
    obtain ⟨hlen, hmc⟩ := hs
    unfold normalize_tcga_id
    rw [if_pos hmc, ← hlen, List.take_length]
  · cases hst : searchTCGA name with
    | some m =>
      have hx : extract_sample_id name = normalize_tcga_id m := by
        rw [extract_sample_id, hst]
      rw [hx]
      have h5 := (searchTCGA_some hst).2
      apply normalize_ne_empty
      intro hcon
      rw [hcon] at h5
      exact absurd h5 (by decide)
    | none =>
      cases hu : searchUUID name with
      | some u =>
        have hx : extract_sample_id name = u := by
          rw [extract_sample_id, hst, hu]
        rw [hx]
        have h36 := (searchUUID_some hu).2
        intro hcon
        rw [hcon] at h36
        simp at h36
      | none =>
        have hx : extract_sample_id name = normalize_tcga_id (stemOf name) := by
          rw [extract_sample_id, hst, hu]
        rw [hx]
        exact normalize_ne_empty (stemOf_ne_empty hn)

/-- Claim C6, witness: the canonical barcode `TCGA-AB-1234` is fixed by
canonicalization, and a plain file name extracts to a non-empty ID. -/
theorem C6_witness :
    normalize_tcga_id "TCGA-AB-1234" = "TCGA-AB-1234" ∧
    extract_sample_id "sample.rppa.txt" ≠ "" :=
  C6_idempotent_nonempty "TCGA-AB-1234" "sample.rppa.txt" (by decide) (by decide)

/-! ### C7: the per-type merge keeps the first row per sample ID -/

lemma map_pair_fst2 {α β : Type} (l : List α) (g : α → String) (v : α → β) :
    (l.map fun a => (g a, v a)).map Prod.fst = l.map g := by
  induction l with
  | nil => rfl
  | cons x xs ih => simp [ih]

lemma dedupRowsAux_find? {α : Type} (l : List (String × α)) (seen : List String) (s : String)
    (hs : s ∉ seen) :
    (dedupRowsAux seen l).find? (fun r => r.1 == s) = l.find? (fun r => r.1 == s) := by
  induction l generalizing seen with
  | nil => rfl
  | cons r rs ih =>
    by_cases hr : r.1 ∈ seen
    · rw [dedupRowsAux, if_pos hr]
      have hrs : (r.1 == s) = false := by
        simp only [beq_eq_false_iff_ne]
        intro he
        exact hs (he ▸ hr)
      simp only [List.find?, hrs]
      exact ih seen hs
    · rw [dedupRowsAux, if_neg hr]
      by_cases heq : (r.1 == s) = true
      · simp only [List.find?, heq]
      · have heqf : (r.1 == s) = false := by simpa using heq
        simp only [List.find?, heqf]
        refine ih (r.1 :: seen) ?_
        intro hmem
        rcases List.mem_cons.mp hmem with rfl | hmem'
        · exact heq (by simp)
        · exact hs hmem'

lemma dedupRowsAux_keys_nodup {α : Type} (l : List (String × α)) (seen : List String) :
    ((dedupRowsAux seen l).map Prod.fst).Nodup ∧
      ∀ x ∈ (dedupRowsAux seen l).map Prod.fst, x ∉ seen := by
  induction l generalizing seen with
  | nil => simp [dedupRowsAux]
  | cons r rs ih =>
    by_cases hr : r.1 ∈ seen
    · rw [dedupRowsAux, if_pos hr]
      exact ih seen
    · rw [dedupRowsAux, if_neg hr]
      obtain ⟨hnd, hns⟩ := ih (r.1 :: seen)
      simp only [List.map_cons]
      refine ⟨List.nodup_cons.mpr ⟨fun hmem => ?_, hnd⟩, ?_⟩
      · exact (hns _ hmem) (List.mem_cons_self _ _)
      · intro x hx
        rcases List.mem_cons.mp hx with rfl | hx'
        · exact hr
        · exact fun hxs => (hns x hx') (List.mem_cons_of_mem _ hxs)

/-- Claim C7: in the per-type merge, the deduplicated table keeps, for
every sample ID, exactly the first row carrying it in file-scan order
(`find?` is unchanged by the dedup and the kept IDs are duplicate
free), and the stacked rows are in one-to-one order-preserving
correspondence with the parsed frames. -/
theorem C7_first_occurrence_kept (fs : List Frame) (t : Table) (s : String)
    (h : concat0 fs = .ok t) :
    (dedupIndex t).rows.find? (fun r => r.1 == s) = t.rows.find? (fun r => r.1 == s) ∧
    (rowIds (dedupIndex t)).Nodup ∧
    rowIds t = fs.map Frame.idx := by
  refine ⟨dedupRowsAux_find? t.rows [] s (by simp),
    (dedupRowsAux_keys_nodup t.rows []).1, ?_⟩
  cases fs with
  | nil =>
    simp only [concat0] at h
    obtain rfl : (⟨[], []⟩ : Table) = t := by simpa using h
    rfl
  | cons f0 fs' =>
    simp only [concat0] at h
    by_cases hall : (f0 :: fs').all fun f => colNames f == colNames f0
    · rw [if_pos hall] at h
      obtain rfl : (⟨colNames f0,
          (f0 :: fs').map fun f => (f.idx, f.cols.map fun p => some p.2)⟩ : Table) = t := by
        simpa using h
      exact map_pair_fst2 _ _ _
    · rw [if_neg hall] at h
      by_cases hdup : (f0 :: fs').any fun f => hasDup (colNames f)
      · rw [if_pos hdup] at h
        exact absurd h (by simp)
      · rw [if_neg hdup] at h
        obtain rfl : (⟨unionInOrder ((f0 :: fs').map colNames),
            (f0 :: fs').map (reindexFrame (unionInOrder ((f0 :: fs').map colNames)))⟩ : Table)
            = t := by simpa using h
        exact map_pair_fst2 _ _ _

/-- Two frames carrying the same extracted sample ID with different
feature values. -/
def frameA1 : Frame := ⟨"TCGA-AA-0001", [("x", 1)]⟩

def frameA2 : Frame := ⟨"TCGA-AA-0001", [("x", 2)]⟩

/-- Their stacked table before deduplication. -/
def tableA : Table := ⟨["x"], [("TCGA-AA-0001", [some 1]), ("TCGA-AA-0001", [some 2])]⟩

/-- Claim C7, witness: the theorem instantiated on two same-ID frames;
the deduplicated table answers with the first frame's row. -/
theorem C7_witness :
    (dedupIndex tableA).rows.find? (fun r => r.1 == "TCGA-AA-0001")
      = tableA.rows.find? (fun r => r.1 == "TCGA-AA-0001") ∧
    (rowIds (dedupIndex tableA)).Nodup ∧
    rowIds tableA = [frameA1, frameA2].map Frame.idx :=
  C7_first_occurrence_kept [frameA1, frameA2] tableA "TCGA-AA-0001" (by decide)

/-! ### C8: absent samples get zero in the other types' columns -/

lemma segmentFor_length {t : Table} {s : String} (hw : WFTable t) :
    (segmentFor t s).length = t.cols.length := by
  unfold segmentFor
  cases hf : t.rows.find? (fun r => r.1 == s) with
  | some r => exact hw r (List.mem_of_find?_eq_some hf)
  | none => simp

lemma segmentFor_not_mem {t : Table} {s : String} (h : s ∉ rowIds t) :
    segmentFor t s = t.cols.map fun _ => none := by
  unfold segmentFor
  have hf : t.rows.find? (fun r => r.1 == s) = none := by
    rw [List.find?_eq_none]
    intro r hr
    simp only [beq_iff_eq]
    intro he
    exact h (he ▸ List.mem_map_of_mem Prod.fst hr)
  rw [hf]

lemma getD_append_of_le {α : Type} (l₁ l₂ : List α) (d : α) (n : Nat)
    (h : l₁.length ≤ n) : (l₁ ++ l₂).getD n d = l₂.getD (n - l₁.length) d := by
  induction l₁ generalizing n with
  | nil => simp
  | cons a l ih =>
    cases n with
    | zero => simp at h
    | succ k =>
      simp only [List.cons_append, List.getD_cons_succ, List.length_cons]
      rw [ih k (Nat.le_of_succ_le_succ h)]
      congr 1
      omega

lemma getD_all_zero (l : List Rat) (h : ∀ x ∈ l, x = 0) (j : Nat) (hj : j < l.length) :
    l.getD j 1 = 0 := by
  rw [List.getD_eq_getElem l 1 hj]
  exact h _ (List.getElem_mem hj)

/-- Claim C8: in the zero-filled cross-type join of the miRNA, RPPA and
segmentation tables, a sample present only in the miRNA table has the
value 0 at every RPPA column position and every segmentation column
position of its row. -/
theorem C8_zero_fill (m r g : Table) (s : String) (hwm : WFTable m)
    (hm : s ∈ rowIds m) (hr : s ∉ rowIds r) (hg : s ∉ rowIds g) :
    ∃ cells, (s, cells) ∈ (fillna0 (concat1 [m, r, g])).rows ∧
      cells.length = m.cols.length + r.cols.length + g.cols.length ∧
      ∀ i, m.cols.length ≤ i → i < cells.length → cells.getD i 1 = 0 := by
  have hsI : s ∈ dedupKeepFirst ([m, r, g].flatMap rowIds) := by
    rw [mem_dedupKeepFirst]
    simp only [List.flatMap_cons, List.flatMap_nil, List.append_nil, List.mem_append]
    exact Or.inl hm
  have hrows : (fillna0 (concat1 [m, r, g])).rows
      = (dedupKeepFirst ([m, r, g].flatMap rowIds)).map
          (fun s' => (s', ((segmentFor m s').map fun v => v.getD 0)
            ++ (((segmentFor r s').map fun v => v.getD 0)
              ++ ((segmentFor g s').map fun v => v.getD 0)))) := by
    simp [fillna0, concat1, List.map_map, Function.comp]
  refine ⟨((segmentFor m s).map fun v => v.getD 0)
      ++ (((segmentFor r s).map fun v => v.getD 0)
        ++ ((segmentFor g s).map fun v => v.getD 0)), ?_, ?_, ?_⟩
  · rw [hrows]
    exact List.mem_map.mpr ⟨s, hsI, rfl⟩
  · simp only [List.length_append, List.length_map]
    rw [segmentFor_length hwm, segmentFor_not_mem hr, segmentFor_not_mem hg]
    simp only [List.length_map]
    omega
  · intro i hi hilen
    have hAlen : ((segmentFor m s).map fun v => v.getD 0).length = m.cols.length := by
      simp [segmentFor_length hwm]
    rw [getD_append_of_le _ _ _ _ (by omega)]
    apply getD_all_zero
    · intro x hx
      rcases List.mem_append.mp hx with hx' | hx' <;>
        · rw [segmentFor_not_mem (by assumption)] at hx'
          simp only [List.map_map, List.mem_map] at hx'
          rcases hx' with ⟨c, _, hc⟩
          simpa using hc.symm
    · rw [List.length_append] at hilen
      omega

/-- A one-sample miRNA-type table. -/
def tableM : Table := ⟨["a"], [("S-1", [some 1])]⟩

/-- A one-sample RPPA-type table for a different sample. -/
def tableR : Table := ⟨["b"], [("S-2", [some 2])]⟩

/-- An empty segmentation-type table with one column. -/
def tableG : Table := ⟨["c"], []⟩

/-- Claim C8, witness: the zero-fill theorem instantiated at a sample
present only in the miRNA-type table. -/
theorem C8_witness :
    ∃ cells, ("S-1", cells) ∈ (fillna0 (concat1 [tableM, tableR, tableG])).rows ∧
      cells.length = tableM.cols.length + tableR.cols.length + tableG.cols.length ∧
      ∀ i, tableM.cols.length ≤ i → i < cells.length → cells.getD i 1 = 0 :=
  C8_zero_fill tableM tableR tableG "S-1"
    (by intro r hr
        rcases List.mem_singleton.mp hr with rfl
        rfl)
    (by decide) (by decide) (by decide)

/-! ### C9: the cross-type merge is order-independent on triples -/

lemma zip_flatMap_segments (ts : List Table) (s : String) (hw : ∀ t ∈ ts, WFTable t) :
    (ts.flatMap Table.cols).zip ((ts.flatMap fun t => segmentFor t s).map fun v => v.getD 0)
      = ts.flatMap fun t => t.cols.zip ((segmentFor t s).map fun v => v.getD 0) := by
  induction ts with
  | nil => rfl
  | cons t ts' ih =>
    simp only [List.flatMap_cons, List.map_append]
    rw [List.zip_append (by simp [segmentFor_length (hw t (List.mem_cons_self _ _))]),
      ih fun t' ht' => hw t' (List.mem_cons_of_mem _ ht')]

lemma mem_triples_cross (ts : List Table) (hw : ∀ t ∈ ts, WFTable t)
    (x : String × String × Rat) :
    x ∈ triples (relabelTable (fillna0 (concat1 ts))) ↔
      ∃ s, (∃ t ∈ ts, s ∈ rowIds t) ∧
        ∃ t ∈ ts, x ∈ (t.cols.zip ((segmentFor t s).map fun v => v.getD 0)).map
          (fun cv => (normalize_tcga_id s, cv.1, cv.2)) := by
  have hrows : (relabelTable (fillna0 (concat1 ts))).rows
      = (dedupKeepFirst (ts.flatMap rowIds)).map
          (fun s => (normalize_tcga_id s,
            ((ts.flatMap fun t => segmentFor t s).map fun v => v.getD 0))) := by
    simp [relabelTable, fillna0, concat1, List.map_map, Function.comp]
  have hcols : (relabelTable (fillna0 (concat1 ts))).cols = ts.flatMap Table.cols := rfl
  unfold triples
  rw [hrows, hcols]
  constructor
  · intro hx
    rcases List.mem_flatMap.mp hx with ⟨row, hrow, hxr⟩
    rcases List.mem_map.mp hrow with ⟨s, hsI, rfl⟩
    rw [zip_flatMap_segments ts s hw] at hxr
    rcases List.mem_map.mp hxr with ⟨cv, hcv, rfl⟩
    rcases List.mem_flatMap.mp hcv with ⟨t, ht, hcvt⟩
    rcases List.mem_flatMap.mp (mem_dedupKeepFirst.mp hsI) with ⟨t', ht', hs⟩
    exact ⟨s, ⟨t', ht', hs⟩, t, ht, List.mem_map.mpr ⟨cv, hcvt, rfl⟩⟩
  · rintro ⟨s, ⟨t', ht', hs⟩, t, ht, hx⟩
    rcases List.mem_map.mp hx with ⟨cv, hcvt, rfl⟩
    refine List.mem_flatMap.mpr ⟨(normalize_tcga_id s,
      ((ts.flatMap fun u => segmentFor u s).map fun v => v.getD 0)), ?_, ?_⟩
    · exact List.mem_map.mpr
        ⟨s, mem_dedupKeepFirst.mpr (List.mem_flatMap.mpr ⟨t', ht', hs⟩), rfl⟩
    · rw [zip_flatMap_segments ts s hw]
      exact List.mem_map.mpr ⟨cv, List.mem_flatMap.mpr ⟨t, ht, hcvt⟩, rfl⟩

/-- Claim C9: the cross-type zero-filled join, read as the set of
(sample, feature, value) triples, is invariant under any permutation
of the per-type tables. -/
theorem C9_merge_order_independent (ts1 ts2 : List Table) (x : String × String × Rat)
    (hw : ∀ t ∈ ts1, WFTable t) (hp : ts1.Perm ts2) :
    (x ∈ triples (relabelTable (fillna0 (concat1 ts1))) ↔
      x ∈ triples (relabelTable (fillna0 (concat1 ts2)))) := by
  have hw2 : ∀ t ∈ ts2, WFTable t := fun t ht => hw t (hp.mem_iff.mpr ht)
  rw [mem_triples_cross ts1 hw x, mem_triples_cross ts2 hw2 x]
  constructor <;> rintro ⟨s, ⟨t', ht', hs⟩, t, ht, hx⟩
  · exact ⟨s, ⟨t', hp.mem_iff.mp ht', hs⟩, t, hp.mem_iff.mp ht, hx⟩
  · exact ⟨s, ⟨t', hp.mem_iff.mpr ht', hs⟩, t, hp.mem_iff.mpr ht, hx⟩

/-- Claim C9, witness: swapping the two per-type tables leaves triple
membership unchanged. -/
theorem C9_witness :
    (("S-1", "a", (1 : Rat)) ∈ triples (relabelTable (fillna0 (concat1 [tableM, tableR]))) ↔
      ("S-1", "a", (1 : Rat)) ∈ triples (relabelTable (fillna0 (concat1 [tableR, tableM])))) :=
  C9_merge_order_independent [tableM, tableR] [tableR, tableM] ("S-1", "a", 1)
    (by intro t ht r hr
        fin_cases ht <;> fin_cases hr <;> rfl)
    (List.Perm.swap _ _ _)

/-! ### C10: per-file error containment in the scan loop -/

/-- Component-wise concatenation of two scan accumulators. -/
def accAppend (a p : Parsed) : Parsed :=
  ⟨a.mirna ++ p.mirna, a.rppa ++ p.rppa, a.seg ++ p.seg, a.log ++ p.log⟩

lemma accAppend_empty (a : Parsed) : accAppend a emptyParsed = a := by
  cases a
  simp [accAppend, emptyParsed]

lemma accAppend_assoc (a b c : Parsed) :
    accAppend (accAppend a b) c = accAppend a (accAppend b c) := by
  simp [accAppend, List.append_assoc]

lemma processFile_accAppend (a p : Parsed) (f : RawFile) :
    processFile (accAppend a p) f = accAppend a (processFile p f) := by
  unfold processFile
  by_cases h1 : isMirnaName f.name
  · rw [if_pos h1, if_pos h1]
    cases parse_mirna_quant f with
    | ok w => simp [accAppend, List.append_assoc]
    | error e => simp [accAppend, List.append_assoc]
  · rw [if_neg h1, if_neg h1]
    by_cases h2 : isRppaName f.name
    · rw [if_pos h2, if_pos h2]
      cases parse_rppa f with
      | ok w => simp [accAppend, List.append_assoc]
      | error e => simp [accAppend, List.append_assoc]
    · rw [if_neg h2, if_neg h2]
      by_cases h3 : isSegName f.name
      · rw [if_pos h3, if_pos h3]
        cases parse_seg f with
        | ok o =>
          cases o with
          | some w => simp [accAppend, List.append_assoc]
          | none => rfl
        | error e => simp [accAppend, List.append_assoc]
      · rw [if_neg h3, if_neg h3]

lemma foldl_processFile (l : List RawFile) (acc : Parsed) :
    l.foldl processFile acc = accAppend acc (collectLoop l) := by
  induction l generalizing acc with
  | nil =>
    rw [collectLoop]
    simp [accAppend_empty]
  | cons f t ih =>
    rw [List.foldl_cons, ih (processFile acc f)]
    have hc : collectLoop (f :: t) = accAppend (processFile emptyParsed f) (collectLoop t) := by
      rw [collectLoop, List.foldl_cons]
      exact ih (processFile emptyParsed f)
    rw [hc, ← accAppend_assoc]
    congr 1
    have h := processFile_accAppend acc emptyParsed f
    rwa [accAppend_empty] at h

lemma collectLoop_append (l1 l2 : List RawFile) :
    collectLoop (l1 ++ l2) = accAppend (collectLoop l1) (collectLoop l2) := by
  unfold collectLoop
  rw [List.foldl_append]
  exact foldl_processFile l2 (List.foldl processFile emptyParsed l1)

/-- Claim C10, amended: an exception while parsing one file — from
whichever of the three parsers the file's name classifies it to — is
caught by the loop: the file is skipped, a log line naming the file and
the message is emitted, and every other file's frames are exactly those
of the run without the failing file, so the merge still runs on them.
However, beyond directory-level and empty-aggregate conditions, the
merge phase itself can terminate the run when frames with duplicate
column labels force an alignment error. -/
theorem C10_per_file_containment (xs ys : List RawFile) (f : RawFile) (e : String)
    (he : (isMirnaName f.name = true ∧ parse_mirna_quant f = .error e)
        ∨ (isMirnaName f.name = false ∧ isRppaName f.name = true ∧
            parse_rppa f = .error e)
        ∨ (isMirnaName f.name = false ∧ isRppaName f.name = false ∧
            isSegName f.name = true ∧ parse_seg f = .error e)) :
    (collectLoop (xs ++ f :: ys)).mirna = (collectLoop (xs ++ ys)).mirna ∧
    (collectLoop (xs ++ f :: ys)).rppa = (collectLoop (xs ++ ys)).rppa ∧
    (collectLoop (xs ++ f :: ys)).seg = (collectLoop (xs ++ ys)).seg ∧
    (collectLoop (xs ++ f :: ys)).log
      = (collectLoop xs).log ++ failMsg f.name e :: (collectLoop ys).log := by
  have hf : processFile emptyParsed f = ⟨[], [], [], [failMsg f.name e]⟩ := by
    unfold processFile
    rcases he with ⟨hc, hpe⟩ | ⟨hc1, hc2, hpe⟩ | ⟨hc1, hc2, hc3, hpe⟩
    · rw [if_pos hc, hpe]
      rfl
    · rw [if_neg (by simp [hc1]), if_pos hc2, hpe]
      rfl
    · rw [if_neg (by simp [hc1]), if_neg (by simp [hc2]), if_pos hc3, hpe]
      rfl
  have h1 : collectLoop (xs ++ f :: ys)
      = accAppend (collectLoop xs) (accAppend (processFile emptyParsed f) (collectLoop ys)) := by
    rw [collectLoop_append]
    congr 1
    rw [collectLoop, List.foldl_cons]
    exact foldl_processFile ys (processFile emptyParsed f)
  have h2 : collectLoop (xs ++ ys) = accAppend (collectLoop xs) (collectLoop ys) :=
    collectLoop_append xs ys
  rw [h1, h2, hf]
  simp [accAppend]

/-- Claim C10, counterexample to the claim as stated: both miRNA files
parse successfully (no per-file exception at all), yet the run
terminates with a merge-phase reindexing error — a condition that is
neither directory-level nor an empty aggregate. -/
theorem C10_counterexample :
    parse_mirna_quant mirnaFileDupCols = .ok ⟨"TCGA-AA-0001", [("x", 1), ("x", 2)]⟩ ∧
    parse_mirna_quant mirnaFileOther = .ok ⟨"TCGA-BB-0002", [("y", 3)]⟩ ∧
    collect_data (some [mirnaFileDupCols, mirnaFileOther]) patAll =
      .error "InvalidIndexError: Reindexing only valid with uniquely valued Index objects" :=
  ⟨by decide, by decide, by decide⟩

/-- Claim C10, witness: the containment theorem instantiated with the
failing alternate-spelling file inserted before a good file. -/
theorem C10_witness :
    (collectLoop ([] ++ mirnaFileAltSpelling :: [mirnaFileOther])).mirna
      = (collectLoop ([] ++ [mirnaFileOther])).mirna ∧
    (collectLoop ([] ++ mirnaFileAltSpelling :: [mirnaFileOther])).rppa
      = (collectLoop ([] ++ [mirnaFileOther])).rppa ∧
    (collectLoop ([] ++ mirnaFileAltSpelling :: [mirnaFileOther])).seg
      = (collectLoop ([] ++ [mirnaFileOther])).seg ∧
    (collectLoop ([] ++ mirnaFileAltSpelling :: [mirnaFileOther])).log
      = (collectLoop []).log ++
          failMsg mirnaFileAltSpelling.name "KeyError: columns not in index"
            :: (collectLoop [mirnaFileOther]).log :=
  C10_per_file_containment [] [mirnaFileOther] mirnaFileAltSpelling
    "KeyError: columns not in index" (Or.inl ⟨by decide, by decide⟩)

end CrcClean
